import Mathlib

/-!
Verification development for the node-id3 ID3v2 tag codec core.

Byte buffers (Node `Buffer`) are modelled as `List Nat`; every operation the
source performs on a buffer is translated element-wise:
`buffer.subarray(off, off + n)` becomes `listSub` (clamping, like `subarray`),
out-of-range reads become `List.getD _ _ 0` (matching the JavaScript bitwise
coercion of `undefined` to `0` in the expressions where the source reads
possibly-missing bytes), and bitwise operators become the `Nat` bitwise
operators.  Where a fact genuinely needs bytes to be in `0..255` (base-256
digit reasoning in `readUIntBE`), the theorem carries an explicit
`∀ b ∈ buffer, b < 256` hypothesis, which holds for every real `Buffer`.
-/

namespace NodeId3

/-- Model of `buffer.subarray(offset, offset + size)` (clamping at the end). -/
def listSub (l : List Nat) (offset size : Nat) : List Nat :=
  (l.drop offset).take size

/-- Model of `buffer.readUIntBE(0, 3)`: 3-byte big-endian read at offset 0. -/
def readUIntBE3 (l : List Nat) : Nat :=
  l.getD 0 0 * 65536 + l.getD 1 0 * 256 + l.getD 2 0

/-- Model of `buffer.readUInt32BE(offset)`: 4-byte big-endian read. -/
def readUInt32BE (l : List Nat) (offset : Nat) : Nat :=
  l.getD offset 0 * 16777216 + l.getD (offset + 1) 0 * 65536 +
    l.getD (offset + 2) 0 * 256 + l.getD (offset + 3) 0

/-- Modelled from the spec: `encodeSize` of the util-size module (not under
`src/`; §4.1): splits `n` into 7-bit groups, most significant group first,
each stored in a byte with bit 7 forced to 0. -/
def encodeSize (n : Nat) : List Nat :=
  [n / 2 ^ 21 % 128, n / 2 ^ 14 % 128, n / 2 ^ 7 % 128, n % 128]

/-- Modelled from the spec: `decodeSize` of the util-size module (not under
`src/`; §4.1): concatenates the low 7 bits of each of the 4 bytes, most
significant first. -/
def decodeSize (bytes : List Nat) : Nat :=
  bytes.getD 0 0 % 128 * 2 ^ 21 + bytes.getD 1 0 % 128 * 2 ^ 14 +
    bytes.getD 2 0 % 128 * 2 ^ 7 + bytes.getD 3 0 % 128

/-- Source `isValidEncodedSize` from the id3-tag module: the size must not have
bit 7 set in any byte (`((b0 | b1 | b2 | b3) & 128) === 0`). -/
def isValidEncodedSize (encodedSize : List Nat) : Bool :=
  (encodedSize.getD 0 0 ||| encodedSize.getD 1 0 |||
    encodedSize.getD 2 0 ||| encodedSize.getD 3 0) &&& 128 == 0

/-- Source `isValidId3Header` from the id3-tag module: 10 bytes available,
identifier `"ID3"`, version and revision not `0xFF`, major version in
`{2, 3, 4}`, and a valid synchsafe size field at offset 6. -/
def isValidId3Header (buffer : List Nat) : Bool :=
  if buffer.length < 10 then false
  else if readUIntBE3 buffer != 0x494433 then false
  else if buffer.getD 3 0 == 0xFF || buffer.getD 4 0 == 0xFF then false
  else if !([0x02, 0x03, 0x04].contains (buffer.getD 3 0)) then false
  else isValidEncodedSize (listSub buffer 6 4)

/-- The scanning loop of `findId3TagPosition`.  The JavaScript loop advances
through the successive `indexOf("ID3")` matches and tests
`isValidId3Header` at each; since `isValidId3Header` is `false` at every
offset that does not start with the `"ID3"` signature (its identifier
check), testing every offset in order is the same function. -/
def findId3TagScan : List Nat → Nat → Option Nat
  | [], _ => none
  | b :: rest, i =>
    if isValidId3Header (b :: rest) then some i
    else findId3TagScan rest (i + 1)

/-- Source `findId3TagPosition`: position of the first valid tag header, or
`none` for the source's `-1`. -/
def findId3TagPosition (buffer : List Nat) : Option Nat :=
  findId3TagScan buffer 0

/-- Result type of `removeId3Tag`: the source returns either a buffer or the
sentinel `false`. -/
inductive StripResult where
  | buffer (data : List Nat)
  | failed
deriving DecidableEq, Repr

/-- Source `removeId3Tag` from the id3-tag module. -/
def removeId3Tag (data : List Nat) : StripResult :=
  match findId3TagPosition data with
  | none => .buffer data
  | some tagPosition =>
    let encodedSize := listSub data (tagPosition + 6) 4
    if !isValidEncodedSize encodedSize then .failed
    else if tagPosition + 10 ≤ data.length then
      .buffer (data.take tagPosition ++
        data.drop (tagPosition + decodeSize encodedSize + 10))
    else .buffer data

/-- Model of a `Buffer.prototype.copy`-style overwrite of `src` into `target` at
`offset`, clamped to the target's length (used only in-bounds by
`embedFramesInId3Tag`). -/
def writeBytes (target : List Nat) (offset : Nat) (src : List Nat) : List Nat :=
  (target.take offset ++ src ++ target.drop (offset + src.length)).take
    target.length

/-- Source `embedFramesInId3Tag` from the id3-tag module: a zeroed 10-byte header,
then `header.write("ID3", 0)`, `header.writeUInt16BE(0x0300, 3)`,
`header.writeUInt16BE(0x0000, 5)`, `encodeSize(frames.length).copy(header, 6)`,
and finally `Buffer.concat([header, frames])`. -/
def embedFramesInId3Tag (frames : List Nat) : List Nat :=
  let header0 := List.replicate 10 0
  let header1 := writeBytes header0 0 [0x49, 0x44, 0x33]
  let header2 := writeBytes header1 3 [0x03, 0x00]
  let header3 := writeBytes header2 5 [0x00, 0x00]
  let header4 := writeBytes header3 6 (encodeSize frames.length)
  header4 ++ frames

/-- The tag-header flag record.  The source returns the empty object `{}`
for versions other than 3 and 4 (and for short headers); reading a flag off
`{}` yields `undefined`, i.e. falsy, which the all-`false` default record
models. -/
structure TagHeaderFlags where
  unsynchronisation : Bool := false
  extendedHeader : Bool := false
  experimentalIndicator : Bool := false
  footerPresent : Bool := false
deriving DecidableEq, Repr

/-- Source `parseTagHeaderFlags` from the id3-tag module
(`!!(flagsByte & bit)` is modelled as `flagsByte &&& bit != 0`). -/
def parseTagHeaderFlags (header : List Nat) : TagHeaderFlags :=
  if header.length < 10 then {}
  else
    let version := header.getD 3 0
    let flagsByte := header.getD 5 0
    if version == 3 then
      { unsynchronisation := flagsByte &&& 128 != 0
        extendedHeader := flagsByte &&& 64 != 0
        experimentalIndicator := flagsByte &&& 32 != 0 }
    else if version == 4 then
      { unsynchronisation := flagsByte &&& 128 != 0
        extendedHeader := flagsByte &&& 64 != 0
        experimentalIndicator := flagsByte &&& 32 != 0
        footerPresent := flagsByte &&& 16 != 0 }
    else {}

/-- Result type of `getId3TagBody`: the tag's major version together with the
extracted body buffer. -/
structure TagBody where
  version : Nat
  buffer : List Nat
deriving DecidableEq, Repr

/-- Source `getId3TagBody` from the id3-tag module.  The final
`Buffer.alloc(bodySize)` / `tagData.copy(body, 0, totalHeaderSize)` pair
yields the bytes of `tagData` past `totalHeaderSize`, zero-padded on the
right up to `bodySize`. -/
def getId3TagBody (buffer : List Nat) : Option TagBody :=
  match findId3TagPosition buffer with
  | none => none
  | some tagPosition =>
    let encodedSize := listSub buffer (tagPosition + 6) 4
    let tagSize := 10 + decodeSize encodedSize
    let tagData := listSub buffer tagPosition tagSize
    let tagHeader := tagData.take 10
    let version := tagHeader.getD 3 0
    let tagFlags := parseTagHeaderFlags tagHeader
    let extendedHeaderSize :=
      if tagFlags.extendedHeader then
        if version == 3 then 4 + readUInt32BE tagData 10
        else if version == 4 then decodeSize (listSub tagData 10 4)
        else 0
      else 0
    let totalHeaderSize := 10 + extendedHeaderSize
    let bodySize := tagSize - totalHeaderSize
    let body :=
      ((tagData.drop totalHeaderSize) ++ List.replicate bodySize 0).take
        bodySize
    some { version := version, buffer := body }

/-! ### The update module (`src/update.ts`)

Frame values are modelled with strings and string-keyed records — the
shapes the update rules inspect (`typeof x === "object"`, `Array.isArray`,
the comparison-key lookup).  The JavaScript `Record<string, number>` index
is modelled as a pure finite map `String → Option Nat`.  JavaScript
property access `tag[compareKey]` on a record missing the key yields
`undefined`, which then becomes the literal record key `"undefined"`;
`compareValueOf` reproduces that coercion. -/

/-- A single frame value: a string or an object record. -/
inductive RValue where
  | str (s : String)
  | obj (fields : List (String × String))
deriving DecidableEq, Repr

/-- A raw-tag slot: a single value or an array of values. -/
inductive FrameValue where
  | single (v : RValue)
  | arr (vs : List RValue)
deriving DecidableEq, Repr

/-- JavaScript truthiness of a raw-tag slot: of the shapes modelled, only
the empty string is falsy (arrays and objects are always truthy). -/
def FrameValue.truthy : FrameValue → Bool
  | .single (.str s) => s != ""
  | _ => true

/-- Property lookup on an object record (last binding wins, as in a
JavaScript object literal). -/
def objGet (fields : List (String × String)) (key : String) : Option String :=
  (fields.reverse.find? (fun p => p.fst == key)).map (·.snd)

/-- Value of `tag[compareKey]` coerced to a record key: a missing property reads as
`undefined`, which indexes the record as the string `"undefined"`. -/
def compareValueOf (fields : List (String × String)) (key : String) : String :=
  (objGet fields key).getD "undefined"

/-- Source `FrameOptions` for one frame identifier (external frame-spec lookup):
whether the frame is multi-valued and its optional comparison key. -/
structure FrameOptions where
  multiple : Bool
  updateCompareKey : Option String
deriving DecidableEq, Repr

/-- The `currentTag.forEach` loop that fills `compareValueToFrameIndex`:
walks the current records with their indices, recording for each object
record its comparison value; a later record with the same comparison value
overwrites the earlier index. -/
def buildIndexFrom (key : String) :
    List RValue → Nat → (String → Option Nat) → String → Option Nat
  | [], _, acc => acc
  | .obj fields :: rest, i, acc =>
    buildIndexFrom key rest (i + 1)
      (fun v => if v == compareValueOf fields key then some i else acc v)
  | .str _ :: rest, i, acc => buildIndexFrom key rest (i + 1) acc

/-- Source `compareValueToFrameIndex` as a finite map from comparison value to
frame index. -/
def buildIndex (key : String) (current : List RValue) : String → Option Nat :=
  buildIndexFrom key current 0 (fun _ => none)

/-- The `newTagArray.forEach` loop of `updateFrameIfMultiple`: an object
record whose comparison value is in the index overwrites the current array
at the indexed position; every other new value is pushed at the end. -/
def mergeNewTags (idx : String → Option Nat) (key : String)
    (current news : List RValue) : List RValue :=
  news.foldl
    (fun cur tagValue =>
      match tagValue with
      | .obj fields =>
        match idx (compareValueOf fields key) with
        | some frameIndex => cur.set frameIndex tagValue
        | none => cur ++ [tagValue]
      | .str s => cur ++ [RValue.str s])
    current

/-- Model of `newTag instanceof Array ? newTag : [newTag]`. -/
def toTagArray : FrameValue → List RValue
  | .arr l => l
  | .single v => [v]

/-- Source `updateFrameIfMultiple` from `src/update.ts`.  `none` models the
source's `null` (and a `none` argument models an `undefined` tag value);
the four early-out conditions `!options.multiple || !newTag ||
!currentTag || !Array.isArray(currentTag)` are the `none` branches. -/
def updateFrameIfMultiple (options : FrameOptions)
    (newTag currentTag : Option FrameValue) : Option FrameValue :=
  match newTag, currentTag with
  | some nt, some ct =>
    if !options.multiple || !nt.truthy || !ct.truthy then none
    else
      match ct with
      | .single _ => none
      | .arr currentList =>
        match options.updateCompareKey with
        | none => some (.arr (currentList ++ toTagArray nt))
        | some compareKey =>
          if compareKey == "" then
            some (.arr (currentList ++ toTagArray nt))
          else
            some (.arr (mergeNewTags (buildIndex compareKey currentList)
              compareKey currentList (toTagArray nt)))
  | _, _ => none

/-- A raw-tag mapping, as an insertion-ordered association list — the
model of a string-keyed JavaScript object. -/
abbrev RawTags := List (String × FrameValue)

/-- Read a slot of a raw-tag mapping. -/
def getKey (m : RawTags) (k : String) : Option FrameValue :=
  (m.find? (fun p => p.fst == k)).map (·.snd)

/-- Write a slot of a raw-tag mapping: updating an existing key keeps its
position, a new key is appended — JavaScript object assignment order. -/
def setKey (m : RawTags) (k : String) (v : FrameValue) : RawTags :=
  if m.any (fun p => p.fst == k) then
    m.map (fun p => if p.fst == k then (k, v) else p)
  else m ++ [(k, v)]

/-- Source `updateTags` from `src/update.ts`, after the external
`convertWriteTagsToRawTags` renaming: for each new raw entry, store
`updateFrameIfMultiple(...) || newFrame` into the current mapping.  The
external `ID3Util.getSpecOptions` lookup is the injected `spec`
parameter. -/
def updateTags (spec : String → FrameOptions)
    (newRawTags currentRawTags : RawTags) : RawTags :=
  newRawTags.foldl
    (fun cur entry =>
      let updatedFrame :=
        updateFrameIfMultiple (spec entry.fst) (some entry.snd)
          (getKey cur entry.fst)
      setKey cur entry.fst (updatedFrame.getD entry.snd))
    currentRawTags

/-! ### Claim-worded specification definitions

These follow the specification's sentences, to be compared with the
definitions translated from the source. -/

/-- All bytes of a buffer are in `0..255` (true of every Node `Buffer`). -/
def allBytes (l : List Nat) : Prop := ∀ b ∈ l, b < 256

instance (l : List Nat) : Decidable (allBytes l) :=
  inferInstanceAs (Decidable (∀ b ∈ l, b < 256))

/-- The locator's validity checks at offset `i`, as the specification words
them: the 3-byte ASCII signature `"ID3"`, major version and revision not
`0xFF`, major version in `{2, 3, 4}`, and the 4 size bytes at header
offset 6 passing `isValidEncodedSize` — all read from a full 10-byte
header present at `i`. -/
def headerChecksSpec (buffer : List Nat) (i : Nat) : Bool :=
  decide (i + 10 ≤ buffer.length) &&
  (buffer.getD i 0 == 0x49) && (buffer.getD (i + 1) 0 == 0x44) &&
  (buffer.getD (i + 2) 0 == 0x33) &&
  (buffer.getD (i + 3) 0 != 0xFF) && (buffer.getD (i + 4) 0 != 0xFF) &&
  (buffer.getD (i + 3) 0 == 2 || buffer.getD (i + 3) 0 == 3 ||
    buffer.getD (i + 3) 0 == 4) &&
  isValidEncodedSize (listSub buffer (i + 6) 4)

/-- Value of `Header.size + decodeSize(size field)`: the total byte size of the tag
located at `pos` (10-byte header plus synchsafe-decoded body size). -/
def tagSizeAt (buffer : List Nat) (pos : Nat) : Nat :=
  10 + decodeSize (listSub buffer (pos + 6) 4)

/-- The extended-header total size as the specification words it: when the
extended-header flag (bit 6 of the flags byte) is set, version 3 stores a
4-byte big-endian length immediately after the 10-byte main header (total
size 4 plus that value), version 4 stores the full length as a synchsafe
4-byte integer including itself; when the flag is clear the size is 0.
The claim gives no formula for other versions (that case is outside the
claims that use this definition). -/
def extendedHeaderSizeSpec (buffer : List Nat) (pos : Nat) : Nat :=
  if (buffer.getD (pos + 5) 0).testBit 6 then
    if buffer.getD (pos + 3) 0 == 3 then 4 + readUInt32BE buffer (pos + 10)
    else if buffer.getD (pos + 3) 0 == 4 then
      decodeSize (listSub buffer (pos + 10) 4)
    else 0
  else 0

/-- Position of the last existing object record whose comparison-key value
is `v` (the index built by the merge maps each comparison value to the
position of the last record carrying it). -/
def lastMatchIndex (key v : String) : List RValue → Option Nat
  | [] => none
  | t :: rest =>
    match (lastMatchIndex key v rest).map (· + 1) with
    | some j => some j
    | none =>
      match t with
      | .obj fields => if compareValueOf fields key == v then some 0 else none
      | .str _ => none

/-- One step of the claim-worded merge: a new record whose comparison-key
value equals that of some existing record overwrites that existing record
at its original position; otherwise the new value is appended at the
end. -/
def mergeStepSpec (origCur : List RValue) (key : String)
    (acc : List RValue) (v : RValue) : List RValue :=
  match v with
  | .obj fields =>
    match lastMatchIndex key (compareValueOf fields key) origCur with
    | some i => acc.set i v
    | none => acc ++ [v]
  | .str s => acc ++ [RValue.str s]

/-- The claim-worded multi-value merge with a comparison key: process the
new records in order, each overwriting its match in place or being
appended at the end. -/
def mergeSpecC1 (key : String) (cur news : List RValue) : List RValue :=
  news.foldl (mergeStepSpec cur key) cur

/-! ### Helper lemmas -/

theorem land128_eq_zero_iff (x : Nat) :
    x &&& 128 = 0 ↔ x.testBit 7 = false := by
  have h : x &&& 128 = (x.testBit 7).toNat * 128 := by
    have h2 := Nat.and_two_pow x 7
    norm_num at h2
    exact h2
  rw [h]
  cases x.testBit 7 <;> simp

theorem land64_ne_zero_iff (x : Nat) :
    (x &&& 64 != 0) = x.testBit 6 := by
  have h : x &&& 64 = (x.testBit 6).toNat * 64 := by
    have h2 := Nat.and_two_pow x 6
    norm_num at h2
    exact h2
  rw [h]
  cases x.testBit 6 <;> simp

theorem getD_drop (l : List Nat) (i j : Nat) :
    (l.drop i).getD j 0 = l.getD (i + j) 0 := by
  simp [List.getElem?_drop]

theorem getD_listSub (l : List Nat) (off n j : Nat) (hj : j < n) :
    (listSub l off n).getD j 0 = l.getD (off + j) 0 := by
  simp [listSub, List.getElem?_take_of_lt hj, List.getElem?_drop]

theorem listSub_drop (l : List Nat) (off i n : Nat) :
    listSub (l.drop off) i n = listSub l (off + i) n := by
  simp [listSub, List.drop_drop]

theorem getD_lt_256 (l : List Nat) (h : allBytes l) (k : Nat) :
    l.getD k 0 < 256 := by
  rcases hk : l[k]? with _ | b
  · simp [hk]
  · have hb := h b (List.getElem?_mem hk)
    simpa [hk] using hb

theorem findId3TagScan_some_iff (l : List Nat) (p : Nat) : ∀ i,
    findId3TagScan l i = some p ↔
      i ≤ p ∧ isValidId3Header (l.drop (p - i)) = true ∧
        ∀ j < p - i, isValidId3Header (l.drop j) = false := by
  induction l with
  | nil =>
    intro i
    constructor
    · intro h
      exact absurd h (by simp [findId3TagScan])
    · rintro ⟨-, h2, -⟩
      rw [List.drop_nil] at h2
      exact absurd h2 (by decide)
  | cons b rest ih =>
    intro i
    simp only [findId3TagScan]
    by_cases hv : isValidId3Header (b :: rest) = true
    · rw [if_pos hv]
      constructor
      · intro h
        have hp : p = i := by
          injection h with h
          omega
        subst hp
        refine ⟨Nat.le_refl _, ?_, ?_⟩
        · simpa using hv
        · intro j hj
          omega
      · rintro ⟨h1, h2, h3⟩
        by_cases hpi : p = i
        · subst hpi
          rfl
        · exfalso
          have h0 := h3 0 (by omega)
          rw [List.drop_zero] at h0
          rw [hv] at h0
          simp at h0
    · rw [if_neg hv]
      have hv' : isValidId3Header (b :: rest) = false := by
        simpa using hv
      rw [ih (i + 1)]
      constructor
      · rintro ⟨h1, h2, h3⟩
        refine ⟨by omega, ?_, ?_⟩
        · have hstep : p - i = (p - (i + 1)) + 1 := by omega
          rw [hstep, List.drop_succ_cons]
          exact h2
        · intro j hj
          cases j with
          | zero =>
            rw [List.drop_zero]
            exact hv'
          | succ j2 =>
            rw [List.drop_succ_cons]
            exact h3 j2 (by omega)
      · rintro ⟨h1, h2, h3⟩
        have hne : p ≠ i := by
          intro hpi
          subst hpi
          rw [Nat.sub_self, List.drop_zero, hv'] at h2
          exact absurd h2 (by decide)
        refine ⟨by omega, ?_, ?_⟩
        · have hstep : p - i = (p - (i + 1)) + 1 := by omega
          rw [hstep, List.drop_succ_cons] at h2
          exact h2
        · intro j hj
          have hj2 := h3 (j + 1) (by omega)
          rw [List.drop_succ_cons] at hj2
          exact hj2

theorem findId3TagScan_none_iff (l : List Nat) : ∀ i,
    findId3TagScan l i = none ↔
      ∀ j, isValidId3Header (l.drop j) = false := by
  induction l with
  | nil =>
    intro i
    constructor
    · intro _ j
      rw [List.drop_nil]
      decide
    · intro _
      rfl
  | cons b rest ih =>
    intro i
    simp only [findId3TagScan]
    by_cases hv : isValidId3Header (b :: rest) = true
    · rw [if_pos hv]
      constructor
      · intro h
        exact absurd h (by simp)
      · intro h
        have h0 := h 0
        rw [List.drop_zero, hv] at h0
        exact absurd h0 (by decide)
    · rw [if_neg hv]
      rw [ih (i + 1)]
      constructor
      · intro h j
        cases j with
        | zero =>
          rw [List.drop_zero]
          simpa using hv
        | succ j2 =>
          rw [List.drop_succ_cons]
          exact h j2
      · intro h j
        have hj := h (j + 1)
        rw [List.drop_succ_cons] at hj
        exact hj

/-- The locator's per-offset validity test, re-expressed over the whole
buffer: under the byte invariant, `isValidId3Header` on the suffix at `i`
is exactly the specification's list of checks at offset `i`. -/
theorem isValidId3Header_drop_eq (buffer : List Nat) (hbytes : allBytes buffer)
    (i : Nat) : isValidId3Header (buffer.drop i) = headerChecksSpec buffer i := by
  by_cases hlen : i + 10 ≤ buffer.length
  · have hc1 : ¬ ((buffer.drop i).length < 10) := by
      rw [List.length_drop]
      omega
    have e0 : (buffer.drop i).getD 0 0 = buffer.getD i 0 := by
      rw [getD_drop]
      norm_num
    have e1 : (buffer.drop i).getD 1 0 = buffer.getD (i + 1) 0 := getD_drop ..
    have e2 : (buffer.drop i).getD 2 0 = buffer.getD (i + 2) 0 := getD_drop ..
    have e3 : (buffer.drop i).getD 3 0 = buffer.getD (i + 3) 0 := getD_drop ..
    have e4 : (buffer.drop i).getD 4 0 = buffer.getD (i + 4) 0 := getD_drop ..
    have eqid : (readUIntBE3 (buffer.drop i) == 0x494433) =
        ((buffer.getD i 0 == 0x49) && (buffer.getD (i + 1) 0 == 0x44) &&
          (buffer.getD (i + 2) 0 == 0x33)) := by
      rw [Bool.eq_iff_iff]
      simp only [beq_iff_eq, Bool.and_eq_true]
      unfold readUIntBE3
      rw [e0, e1, e2]
      have h0 := getD_lt_256 buffer hbytes i
      have h1 := getD_lt_256 buffer hbytes (i + 1)
      have h2 := getD_lt_256 buffer hbytes (i + 2)
      omega
    have eid : (readUIntBE3 (buffer.drop i) != 0x494433) =
        !((buffer.getD i 0 == 0x49) && (buffer.getD (i + 1) 0 == 0x44) &&
          (buffer.getD (i + 2) 0 == 0x33)) := by
      rw [show (readUIntBE3 (buffer.drop i) != 0x494433) =
        !(readUIntBE3 (buffer.drop i) == 0x494433) from rfl, eqid]
    have econt : ∀ d : Nat, ([0x02, 0x03, 0x04] : List Nat).contains d
        = ((d == 2) || (d == 3) || (d == 4)) := by
      intro d
      cases h2 : d == 2 <;> cases h3 : d == 3 <;> cases h4 : d == 4 <;>
        simp [List.contains, List.elem, h2, h3, h4]
    unfold isValidId3Header headerChecksSpec
    rw [if_neg hc1, eid, e3, e4, econt (buffer.getD (i + 3) 0), listSub_drop,
      decide_eq_true hlen]
    simp only [bne]
    generalize (buffer.getD i 0 == 0x49) = x
    generalize (buffer.getD (i + 1) 0 == 0x44) = y
    generalize (buffer.getD (i + 2) 0 == 0x33) = z
    generalize (buffer.getD (i + 3) 0 == 0xFF) = dq
    generalize (buffer.getD (i + 4) 0 == 0xFF) = e255
    generalize (buffer.getD (i + 3) 0 == 2) = c2
    generalize (buffer.getD (i + 3) 0 == 3) = c3
    generalize (buffer.getD (i + 3) 0 == 4) = c4
    generalize isValidEncodedSize (listSub buffer (i + 6) 4) = V
    revert x y z dq e255 c2 c3 c4 V
    decide
  · have hc1 : (buffer.drop i).length < 10 := by
      rw [List.length_drop]
      omega
    unfold isValidId3Header headerChecksSpec
    rw [if_pos hc1]
    simp [hlen]

theorem located_isValid (buffer : List Nat) (pos : Nat)
    (h : findId3TagPosition buffer = some pos) :
    isValidId3Header (buffer.drop pos) = true := by
  have h2 := ((findId3TagScan_some_iff buffer pos 0).mp h).2.1
  rwa [Nat.sub_zero] at h2

/-- A located tag always sits at least 10 bytes before the end of the
buffer and always carries a valid synchsafe size field (the locator
checked both). -/
theorem located_facts (buffer : List Nat) (pos : Nat)
    (h : findId3TagPosition buffer = some pos) :
    pos + 10 ≤ buffer.length ∧
      isValidEncodedSize (listSub buffer (pos + 6) 4) = true := by
  have hv := located_isValid buffer pos h
  unfold isValidId3Header at hv
  split_ifs at hv with h1 h2 h3 h4
  exact ⟨by rw [List.length_drop] at h1; omega,
         by rw [listSub_drop] at hv; exact hv⟩

theorem length_listSub_of_le (l : List Nat) (off n : Nat)
    (h : off + n ≤ l.length) : (listSub l off n).length = n := by
  simp only [listSub, List.length_take, List.length_drop]
  omega

theorem take_listSub (l : List Nat) (off n m : Nat) (h : m ≤ n) :
    (listSub l off n).take m = listSub l off m := by
  simp [listSub, List.take_take, Nat.min_eq_left h]

theorem drop_listSub (l : List Nat) (off n m : Nat) :
    (listSub l off n).drop m = listSub l (off + m) (n - m) := by
  simp [listSub, List.drop_take, List.drop_drop]

theorem readUInt32BE_listSub (l : List Nat) (off n o2 : Nat)
    (h : o2 + 4 ≤ n) :
    readUInt32BE (listSub l off n) o2 = readUInt32BE l (off + o2) := by
  unfold readUInt32BE
  rw [getD_listSub l off n o2 (by omega),
      getD_listSub l off n (o2 + 1) (by omega),
      getD_listSub l off n (o2 + 2) (by omega),
      getD_listSub l off n (o2 + 3) (by omega),
      show off + (o2 + 1) = off + o2 + 1 from by omega,
      show off + (o2 + 2) = off + o2 + 2 from by omega,
      show off + (o2 + 3) = off + o2 + 3 from by omega]

theorem decodeSize_listSub_listSub (l : List Nat) (off n : Nat)
    (h : 14 ≤ n) :
    decodeSize (listSub (listSub l off n) 10 4) =
      decodeSize (listSub l (off + 10) 4) := by
  unfold decodeSize
  rw [getD_listSub (listSub l off n) 10 4 0 (by omega),
      getD_listSub (listSub l off n) 10 4 1 (by omega),
      getD_listSub (listSub l off n) 10 4 2 (by omega),
      getD_listSub (listSub l off n) 10 4 3 (by omega),
      getD_listSub l off n (10 + 0) (by omega),
      getD_listSub l off n (10 + 1) (by omega),
      getD_listSub l off n (10 + 2) (by omega),
      getD_listSub l off n (10 + 3) (by omega),
      getD_listSub l (off + 10) 4 0 (by omega),
      getD_listSub l (off + 10) 4 1 (by omega),
      getD_listSub l (off + 10) 4 2 (by omega),
      getD_listSub l (off + 10) 4 3 (by omega),
      show off + (10 + 0) = off + 10 + 0 from by omega,
      show off + (10 + 1) = off + 10 + 1 from by omega,
      show off + (10 + 2) = off + 10 + 2 from by omega,
      show off + (10 + 3) = off + 10 + 3 from by omega]

theorem parseTagHeaderFlags_other (header : List Nat)
    (hlen10 : ¬ header.length < 10)
    (hv3 : header.getD 3 0 ≠ 3) (hv4 : header.getD 3 0 ≠ 4) :
    parseTagHeaderFlags header = {} := by
  unfold parseTagHeaderFlags
  rw [if_neg hlen10,
      if_neg (by simp only [beq_iff_eq]; exact hv3),
      if_neg (by simp only [beq_iff_eq]; exact hv4)]

theorem parseTagHeaderFlags_extendedHeader (header : List Nat)
    (hlen10 : ¬ header.length < 10) :
    (parseTagHeaderFlags header).extendedHeader =
      ((header.getD 3 0 == 3 || header.getD 3 0 == 4) &&
        (header.getD 5 0).testBit 6) := by
  unfold parseTagHeaderFlags
  rw [if_neg hlen10]
  by_cases h3 : (header.getD 3 0 == 3) = true
  · rw [if_pos h3]
    show (header.getD 5 0 &&& 64 != 0) = _
    rw [land64_ne_zero_iff, h3]
    simp only [Bool.true_or, Bool.true_and]
  · rw [if_neg h3]
    simp only [Bool.not_eq_true] at h3
    by_cases h4 : (header.getD 3 0 == 4) = true
    · rw [if_pos h4]
      show (header.getD 5 0 &&& 64 != 0) = _
      rw [land64_ne_zero_iff, h3, h4]
      simp only [Bool.false_or, Bool.true_and]
    · rw [if_neg h4]
      simp only [Bool.not_eq_true] at h4
      rw [h3, h4]
      simp only [Bool.false_or, Bool.false_and]

/-- The body extraction at a located position, with the source's
let-chain re-expressed over the whole buffer; `E` is the value of the
extended-header-size branch. -/
theorem getId3TagBody_located (buffer : List Nat) (pos E : Nat)
    (hfind : findId3TagPosition buffer = some pos)
    (hlen : pos + tagSizeAt buffer pos ≤ buffer.length)
    (htot : 10 + E ≤ tagSizeAt buffer pos)
    (hE : (if (parseTagHeaderFlags (listSub buffer pos 10)).extendedHeader then
             if buffer.getD (pos + 3) 0 == 3 then
               4 + readUInt32BE (listSub buffer pos (tagSizeAt buffer pos)) 10
             else if buffer.getD (pos + 3) 0 == 4 then
               decodeSize
                 (listSub (listSub buffer pos (tagSizeAt buffer pos)) 10 4)
             else 0
           else 0) = E) :
    getId3TagBody buffer =
      some { version := buffer.getD (pos + 3) 0,
             buffer := listSub buffer (pos + (10 + E))
               (tagSizeAt buffer pos - (10 + E)) } := by
  have hT10 : 10 ≤ tagSizeAt buffer pos := by
    unfold tagSizeAt
    omega
  have htake : (listSub buffer pos (tagSizeAt buffer pos)).take 10 =
      listSub buffer pos 10 := take_listSub buffer pos _ 10 hT10
  have hver : (listSub buffer pos 10).getD 3 0 = buffer.getD (pos + 3) 0 :=
    getD_listSub buffer pos 10 3 (by omega)
  have hdropE : (listSub buffer pos (tagSizeAt buffer pos)).drop (10 + E) =
      listSub buffer (pos + (10 + E)) (tagSizeAt buffer pos - (10 + E)) :=
    drop_listSub buffer pos _ (10 + E)
  have hlenE : (listSub buffer (pos + (10 + E))
      (tagSizeAt buffer pos - (10 + E))).length =
      tagSizeAt buffer pos - (10 + E) := by
    apply length_listSub_of_le
    omega
  simp only [getId3TagBody, hfind]
  rw [show (10 : Nat) + decodeSize (listSub buffer (pos + 6) 4) =
    tagSizeAt buffer pos from rfl]
  rw [htake, hver, hE]
  rw [hdropE, List.take_left' hlenE]

/-! ### Claim theorems -/

/-- C8: `isValidEncodedSize` returns `true` iff the bitwise OR of the four
bytes has bit 7 clear; equivalently, it returns `false` exactly when some
byte has its high bit set. -/
theorem C8_isValidEncodedSize_iff (s0 s1 s2 s3 : Nat) :
    (isValidEncodedSize [s0, s1, s2, s3] = true ↔
      (s0 ||| s1 ||| s2 ||| s3).testBit 7 = false) ∧
    (isValidEncodedSize [s0, s1, s2, s3] = false ↔
      (s0.testBit 7 = true ∨ s1.testBit 7 = true ∨
        s2.testBit 7 = true ∨ s3.testBit 7 = true)) := by
  have hval : isValidEncodedSize [s0, s1, s2, s3] =
      ((s0 ||| s1 ||| s2 ||| s3) &&& 128 == 0) := rfl
  have hiff := land128_eq_zero_iff (s0 ||| s1 ||| s2 ||| s3)
  constructor
  · rw [hval]
    simpa using hiff
  · rw [hval]
    constructor
    · intro hfalse
      have hne : (s0 ||| s1 ||| s2 ||| s3) &&& 128 ≠ 0 := by
        intro h0
        simp [h0] at hfalse
      have ht : (s0 ||| s1 ||| s2 ||| s3).testBit 7 = true := by
        rcases Bool.eq_false_or_eq_true ((s0 ||| s1 ||| s2 ||| s3).testBit 7)
          with ht | hf
        · exact ht
        · exact absurd (hiff.mpr hf) hne
      simp only [Nat.testBit_lor, Bool.or_eq_true] at ht
      tauto
    · intro hor
      have ht : (s0 ||| s1 ||| s2 ||| s3).testBit 7 = true := by
        simp only [Nat.testBit_lor]
        rcases hor with h | h | h | h <;> simp [h]
      have hne : (s0 ||| s1 ||| s2 ||| s3) &&& 128 ≠ 0 := by
        intro h0
        rw [hiff.mp h0] at ht
        exact Bool.false_ne_true ht
      simpa using hne

/-- C3: the tag locator returns the offset of the first occurrence of the
ASCII signature `"ID3"` that also passes the header checks (version and
revision not `0xFF`, major version in `{2, 3, 4}`, size field passing
`isValidEncodedSize`, with a full 10-byte header in range); occurrences
failing any check are skipped, and if none passes the locator reports
"not found". -/
theorem C3_locator_first_valid (buffer : List Nat) (i : Nat)
    (hbytes : allBytes buffer) :
    (findId3TagPosition buffer = some i ↔
      headerChecksSpec buffer i = true ∧
        ∀ j < i, headerChecksSpec buffer j = false) ∧
    (findId3TagPosition buffer = none ↔
      ∀ j, headerChecksSpec buffer j = false) := by
  have hEq : ∀ j, isValidId3Header (buffer.drop j) = headerChecksSpec buffer j :=
    isValidId3Header_drop_eq buffer hbytes
  constructor
  · rw [findId3TagPosition, findId3TagScan_some_iff]
    constructor
    · rintro ⟨-, h2, h3⟩
      rw [Nat.sub_zero] at h2 h3
      rw [hEq] at h2
      refine ⟨h2, fun j hj => ?_⟩
      rw [← hEq]
      exact h3 j hj
    · rintro ⟨h2, h3⟩
      refine ⟨Nat.zero_le _, ?_, ?_⟩
      · rw [Nat.sub_zero, hEq]
        exact h2
      · intro j hj
        rw [Nat.sub_zero] at hj
        rw [hEq]
        exact h3 j hj
  · rw [findId3TagPosition, findId3TagScan_none_iff]
    constructor
    · intro h j
      rw [← hEq]
      exact h j
    · intro h j
      rw [hEq]
      exact h j

theorem C3_locator_first_valid_witness :
    allBytes [0, 0x49, 0x44, 0x33, 3, 0, 0, 0, 0, 0, 1] ∧
      ((findId3TagPosition [0, 0x49, 0x44, 0x33, 3, 0, 0, 0, 0, 0, 1] = some 1 ↔
        headerChecksSpec [0, 0x49, 0x44, 0x33, 3, 0, 0, 0, 0, 0, 1] 1 = true ∧
          ∀ j < 1,
            headerChecksSpec [0, 0x49, 0x44, 0x33, 3, 0, 0, 0, 0, 0, 1] j = false) ∧
       (findId3TagPosition [0, 0x49, 0x44, 0x33, 3, 0, 0, 0, 0, 0, 1] = none ↔
        ∀ j, headerChecksSpec [0, 0x49, 0x44, 0x33, 3, 0, 0, 0, 0, 0, 1] j = false)) :=
  ⟨by decide, C3_locator_first_valid [0, 0x49, 0x44, 0x33, 3, 0, 0, 0, 0, 0, 1] 1
    (by decide)⟩

/-- C2: when the locator finds a tag, the size field at the located header
necessarily passes the synchsafe validity check (the locator already
validated it), and `removeId3Tag` removes exactly `10 + decoded size`
bytes starting at the found offset; the code path for an invalid size
field at a located tag reports the failure outcome, which is distinct
from the unchanged-buffer "no tag found" outcome. -/
theorem C2_strip_located (data : List Nat) (pos : Nat)
    (h : findId3TagPosition data = some pos) :
    isValidEncodedSize (listSub data (pos + 6) 4) = true ∧
    removeId3Tag data =
      .buffer (data.take pos ++
        data.drop (pos + (10 + decodeSize (listSub data (pos + 6) 4)))) ∧
    (isValidEncodedSize (listSub data (pos + 6) 4) = false →
      removeId3Tag data = .failed) := by
  obtain ⟨hlen, hvalid⟩ := located_facts data pos h
  refine ⟨hvalid, ?_, ?_⟩
  · unfold removeId3Tag
    rw [h]
    simp only [hvalid, Bool.not_true, if_false]
    rw [if_pos hlen]
    have harith : pos + decodeSize (listSub data (pos + 6) 4) + 10 =
        pos + (10 + decodeSize (listSub data (pos + 6) 4)) := by
      omega
    rw [harith]
    simp
  · intro hfalse
    rw [hvalid] at hfalse
    simp at hfalse

theorem C2_strip_located_witness :
    findId3TagPosition [0x49, 0x44, 0x33, 3, 0, 0, 0, 0, 0, 1, 0xEE, 0x42] =
        some 0 ∧
      (isValidEncodedSize
          (listSub [0x49, 0x44, 0x33, 3, 0, 0, 0, 0, 0, 1, 0xEE, 0x42]
            (0 + 6) 4) = true ∧
       removeId3Tag [0x49, 0x44, 0x33, 3, 0, 0, 0, 0, 0, 1, 0xEE, 0x42] =
         .buffer ([0x49, 0x44, 0x33, 3, 0, 0, 0, 0, 0, 1, 0xEE, 0x42].take 0 ++
           [0x49, 0x44, 0x33, 3, 0, 0, 0, 0, 0, 1, 0xEE, 0x42].drop
             (0 + (10 + decodeSize
               (listSub [0x49, 0x44, 0x33, 3, 0, 0, 0, 0, 0, 1, 0xEE, 0x42]
                 (0 + 6) 4)))) ∧
       (isValidEncodedSize
           (listSub [0x49, 0x44, 0x33, 3, 0, 0, 0, 0, 0, 1, 0xEE, 0x42]
             (0 + 6) 4) = false →
         removeId3Tag [0x49, 0x44, 0x33, 3, 0, 0, 0, 0, 0, 1, 0xEE, 0x42] =
           .failed)) :=
  ⟨by decide,
    C2_strip_located [0x49, 0x44, 0x33, 3, 0, 0, 0, 0, 0, 1, 0xEE, 0x42] 0
      (by decide)⟩

/-- C9: when the locator finds no structurally valid ID3 header,
`removeId3Tag` returns the input buffer itself, unchanged. -/
theorem C9_strip_without_tag (data : List Nat)
    (h : findId3TagPosition data = none) :
    removeId3Tag data = .buffer data := by
  unfold removeId3Tag
  rw [h]

theorem C9_strip_without_tag_witness :
    findId3TagPosition [1, 2, 3] = none ∧
      removeId3Tag [1, 2, 3] = .buffer [1, 2, 3] :=
  ⟨by decide, C9_strip_without_tag [1, 2, 3] (by decide)⟩

/-- C4: `embedFramesInId3Tag` returns a 10-byte header — identifier
`"ID3"`, major version 3, revision 0, flags byte 0, synchsafe size field
encoding the exact frame-byte length — followed by the frame bytes
unchanged. -/
theorem C4_embed_header (frames : List Nat) (h : frames.length < 2 ^ 28) :
    embedFramesInId3Tag frames =
      [0x49, 0x44, 0x33, 0x03, 0x00, 0x00] ++
        encodeSize frames.length ++ frames ∧
    decodeSize (encodeSize frames.length) = frames.length := by
  constructor
  · rfl
  · simp only [encodeSize, decodeSize, List.getD]
    norm_num
    omega

theorem C4_embed_header_witness :
    ([7, 8] : List Nat).length < 2 ^ 28 ∧
      (embedFramesInId3Tag [7, 8] =
        [0x49, 0x44, 0x33, 0x03, 0x00, 0x00] ++
          encodeSize ([7, 8] : List Nat).length ++ [7, 8] ∧
       decodeSize (encodeSize ([7, 8] : List Nat).length) =
         ([7, 8] : List Nat).length) :=
  ⟨by decide, C4_embed_header [7, 8] (by decide)⟩

/-- C5: for a located tag, the extracted body starts immediately after the
extended header, whose total size is version-dependent — v3: 4 plus the
4-byte big-endian length stored after the 10-byte main header; v4: the
synchsafe-decoded value of the 4 bytes after the main header (already
including itself); with the flag clear, the body starts immediately after
the 10-byte header (extended size 0). -/
theorem C5_extended_header (buffer : List Nat) (pos : Nat)
    (hfind : findId3TagPosition buffer = some pos)
    (hlen : pos + tagSizeAt buffer pos ≤ buffer.length)
    (hext : 10 + extendedHeaderSizeSpec buffer pos ≤ tagSizeAt buffer pos)
    (hv4size : buffer.getD (pos + 3) 0 = 4 →
      (buffer.getD (pos + 5) 0).testBit 6 = true →
        14 ≤ tagSizeAt buffer pos)
    (_hver : buffer.getD (pos + 3) 0 = 3 ∨ buffer.getD (pos + 3) 0 = 4 ∨
      (buffer.getD (pos + 5) 0).testBit 6 = false) :
    getId3TagBody buffer =
      some { version := buffer.getD (pos + 3) 0,
             buffer := listSub buffer
               (pos + (10 + extendedHeaderSizeSpec buffer pos))
               (tagSizeAt buffer pos -
                 (10 + extendedHeaderSizeSpec buffer pos)) } := by
  have hT10 : 10 ≤ tagSizeAt buffer pos := by
    unfold tagSizeAt
    omega
  have hpos10 : pos + 10 ≤ buffer.length := by omega
  have hlen10 : ¬ (listSub buffer pos 10).length < 10 := by
    rw [length_listSub_of_le buffer pos 10 hpos10]
    omega
  have h3 : (listSub buffer pos 10).getD 3 0 = buffer.getD (pos + 3) 0 :=
    getD_listSub buffer pos 10 3 (by omega)
  have h5 : (listSub buffer pos 10).getD 5 0 = buffer.getD (pos + 5) 0 :=
    getD_listSub buffer pos 10 5 (by omega)
  apply getId3TagBody_located buffer pos _ hfind hlen hext
  rw [parseTagHeaderFlags_extendedHeader _ hlen10, h3, h5]
  by_cases hf : (buffer.getD (pos + 5) 0).testBit 6 = true
  · by_cases hd3 : (buffer.getD (pos + 3) 0 == 3) = true
    · have hspec : extendedHeaderSizeSpec buffer pos =
          4 + readUInt32BE buffer (pos + 10) := by
        unfold extendedHeaderSizeSpec
        rw [hf, hd3]
        simp
      have hT14 : 10 + 4 ≤ tagSizeAt buffer pos := by
        rw [hspec] at hext
        omega
      rw [hf, hd3, hspec]
      simp [readUInt32BE_listSub buffer pos (tagSizeAt buffer pos) 10 hT14]
    · have hd3' : (buffer.getD (pos + 3) 0 == 3) = false := by
        rwa [Bool.not_eq_true] at hd3
      by_cases hd4 : (buffer.getD (pos + 3) 0 == 4) = true
      · have hd : buffer.getD (pos + 3) 0 = 4 := by
          simpa using hd4
        have hT14 : 14 ≤ tagSizeAt buffer pos := hv4size hd hf
        have hspec : extendedHeaderSizeSpec buffer pos =
            decodeSize (listSub buffer (pos + 10) 4) := by
          unfold extendedHeaderSizeSpec
          rw [hf, hd3', hd4]
          simp
        rw [hf, hd3', hd4, hspec]
        simp [decodeSize_listSub_listSub buffer pos (tagSizeAt buffer pos)
          hT14]
      · have hd4' : (buffer.getD (pos + 3) 0 == 4) = false := by
          rwa [Bool.not_eq_true] at hd4
        have hspec : extendedHeaderSizeSpec buffer pos = 0 := by
          unfold extendedHeaderSizeSpec
          rw [hf, hd3', hd4']
          simp
        rw [hf, hd3', hd4', hspec]
        simp
  · have hf' : (buffer.getD (pos + 5) 0).testBit 6 = false := by
      rwa [Bool.not_eq_true] at hf
    have hspec : extendedHeaderSizeSpec buffer pos = 0 := by
      unfold extendedHeaderSizeSpec
      rw [hf']
      simp
    rw [hf', hspec]
    simp

theorem C5_extended_header_witness :
    findId3TagPosition
        [0x49, 0x44, 0x33, 3, 0, 0x40, 0, 0, 0, 10,
         0, 0, 0, 2, 9, 9, 1, 2, 3, 4] = some 0 ∧
      getId3TagBody
          [0x49, 0x44, 0x33, 3, 0, 0x40, 0, 0, 0, 10,
           0, 0, 0, 2, 9, 9, 1, 2, 3, 4] =
        some { version :=
                 [0x49, 0x44, 0x33, 3, 0, 0x40, 0, 0, 0, 10,
                  0, 0, 0, 2, 9, 9, 1, 2, 3, 4].getD (0 + 3) 0,
               buffer := listSub
                 [0x49, 0x44, 0x33, 3, 0, 0x40, 0, 0, 0, 10,
                  0, 0, 0, 2, 9, 9, 1, 2, 3, 4]
                 (0 + (10 + extendedHeaderSizeSpec
                   [0x49, 0x44, 0x33, 3, 0, 0x40, 0, 0, 0, 10,
                    0, 0, 0, 2, 9, 9, 1, 2, 3, 4] 0))
                 (tagSizeAt
                     [0x49, 0x44, 0x33, 3, 0, 0x40, 0, 0, 0, 10,
                      0, 0, 0, 2, 9, 9, 1, 2, 3, 4] 0 -
                   (10 + extendedHeaderSizeSpec
                     [0x49, 0x44, 0x33, 3, 0, 0x40, 0, 0, 0, 10,
                      0, 0, 0, 2, 9, 9, 1, 2, 3, 4] 0)) } :=
  ⟨by decide,
    C5_extended_header
      [0x49, 0x44, 0x33, 3, 0, 0x40, 0, 0, 0, 10,
       0, 0, 0, 2, 9, 9, 1, 2, 3, 4] 0
      (by decide) (by decide) (by decide) (by decide) (by decide)⟩

/-- C10: for a located tag whose major version is neither 3 nor 4 (e.g. a
v2 tag), `parseTagHeaderFlags` returns the empty flag record, so the
extended-header branch is never taken and the body starts immediately
after the 10-byte header. -/
theorem C10_v2_flags_empty (buffer : List Nat) (pos : Nat)
    (hfind : findId3TagPosition buffer = some pos)
    (hlen : pos + tagSizeAt buffer pos ≤ buffer.length)
    (hv3 : buffer.getD (pos + 3) 0 ≠ 3)
    (hv4 : buffer.getD (pos + 3) 0 ≠ 4) :
    parseTagHeaderFlags (listSub buffer pos 10) = {} ∧
    getId3TagBody buffer =
      some { version := buffer.getD (pos + 3) 0,
             buffer := listSub buffer (pos + 10)
               (tagSizeAt buffer pos - 10) } := by
  have hT10 : 10 ≤ tagSizeAt buffer pos := by
    unfold tagSizeAt
    omega
  have hpos10 : pos + 10 ≤ buffer.length := by omega
  have hlen10 : ¬ (listSub buffer pos 10).length < 10 := by
    rw [length_listSub_of_le buffer pos 10 hpos10]
    omega
  have h3 : (listSub buffer pos 10).getD 3 0 = buffer.getD (pos + 3) 0 :=
    getD_listSub buffer pos 10 3 (by omega)
  have hparse : parseTagHeaderFlags (listSub buffer pos 10) = {} := by
    apply parseTagHeaderFlags_other _ hlen10
    · rw [h3]
      exact hv3
    · rw [h3]
      exact hv4
  refine ⟨hparse, ?_⟩
  have hmain := getId3TagBody_located buffer pos 0 hfind hlen (by omega)
    (by rw [hparse]; rfl)
  simpa using hmain

theorem C10_v2_flags_empty_witness :
    findId3TagPosition [0x49, 0x44, 0x33, 2, 0, 0x40, 0, 0, 0, 1, 0xAB] =
        some 0 ∧
      (parseTagHeaderFlags
          (listSub [0x49, 0x44, 0x33, 2, 0, 0x40, 0, 0, 0, 1, 0xAB] 0 10) =
        {} ∧
       getId3TagBody [0x49, 0x44, 0x33, 2, 0, 0x40, 0, 0, 0, 1, 0xAB] =
        some { version :=
                 [0x49, 0x44, 0x33, 2, 0, 0x40, 0, 0, 0, 1, 0xAB].getD
                   (0 + 3) 0,
               buffer := listSub
                 [0x49, 0x44, 0x33, 2, 0, 0x40, 0, 0, 0, 1, 0xAB] (0 + 10)
                 (tagSizeAt [0x49, 0x44, 0x33, 2, 0, 0x40, 0, 0, 0, 1, 0xAB]
                     0 - 10) }) :=
  ⟨by decide,
    C10_v2_flags_empty [0x49, 0x44, 0x33, 2, 0, 0x40, 0, 0, 0, 1, 0xAB] 0
      (by decide) (by decide) (by decide) (by decide)⟩

/-! ### Raw-tag map lemmas -/

theorem find?_mapSet (m : RawTags) (k : String) (v : FrameValue)
    (h : m.any (fun p => p.fst == k) = true) :
    (m.map (fun p => if p.fst == k then (k, v) else p)).find?
        (fun p => p.fst == k) = some (k, v) := by
  induction m with
  | nil => simp at h
  | cons p rest ih =>
    simp only [List.map_cons]
    by_cases hp : (p.fst == k) = true
    · rw [if_pos hp]
      exact List.find?_cons_of_pos _ (by simp)
    · rw [if_neg hp]
      rw [List.find?_cons_of_neg _ (by simp [hp])]
      apply ih
      rw [List.any_cons] at h
      simpa [hp] using h

theorem find?_mapSet_ne (m : RawTags) (k k2 : String) (v : FrameValue)
    (hne : k ≠ k2) :
    (m.map (fun p => if p.fst == k then (k, v) else p)).find?
        (fun p => p.fst == k2) =
      m.find? (fun p => p.fst == k2) := by
  induction m with
  | nil => rfl
  | cons p rest ih =>
    simp only [List.map_cons]
    by_cases hp : (p.fst == k) = true
    · rw [if_pos hp]
      have hpk : p.fst = k := by simpa using hp
      rw [List.find?_cons_of_neg _ (by simp [hne]),
          List.find?_cons_of_neg _ (by simp [hpk, hne]), ih]
    · rw [if_neg hp]
      rw [List.find?_cons, List.find?_cons]
      cases hp2 : (p.fst == k2) with
      | true =>
        simp only [hp2]
      | false =>
        simp only [hp2]
        exact ih

theorem getKey_setKey_self (m : RawTags) (k : String) (v : FrameValue) :
    getKey (setKey m k v) k = some v := by
  unfold setKey
  by_cases h : m.any (fun p => p.fst == k) = true
  · rw [if_pos h]
    unfold getKey
    rw [find?_mapSet m k v h]
    rfl
  · rw [if_neg h]
    unfold getKey
    rw [Bool.not_eq_true] at h
    rw [List.any_eq_false] at h
    have hnone : m.find? (fun p => p.fst == k) = none := by
      rw [List.find?_eq_none]
      exact h
    rw [List.find?_append, hnone]
    simp

theorem getKey_setKey_ne (m : RawTags) (k k2 : String) (v : FrameValue)
    (hne : k ≠ k2) : getKey (setKey m k v) k2 = getKey m k2 := by
  unfold setKey
  by_cases h : m.any (fun p => p.fst == k) = true
  · rw [if_pos h]
    unfold getKey
    rw [find?_mapSet_ne m k k2 v hne]
  · rw [if_neg h]
    unfold getKey
    rw [List.find?_append]
    have hone : ([(k, v)] : RawTags).find? (fun p => p.fst == k2) = none := by
      simp [hne]
    rw [hone]
    cases m.find? (fun p => p.fst == k2) <;> rfl

theorem updateTags_cons (spec : String → FrameOptions)
    (e : String × FrameValue) (l : RawTags) (cur : RawTags) :
    updateTags spec (e :: l) cur =
      updateTags spec l (setKey cur e.fst
        ((updateFrameIfMultiple (spec e.fst) (some e.snd)
          (getKey cur e.fst)).getD e.snd)) := rfl

theorem updateTags_append (spec : String → FrameOptions)
    (l1 l2 : RawTags) (cur : RawTags) :
    updateTags spec (l1 ++ l2) cur =
      updateTags spec l2 (updateTags spec l1 cur) := by
  unfold updateTags
  rw [List.foldl_append]

theorem getKey_updateTags_not_mem (spec : String → FrameOptions)
    (l : RawTags) (cur : RawTags) (k : String)
    (h : ∀ e ∈ l, e.fst ≠ k) :
    getKey (updateTags spec l cur) k = getKey cur k := by
  induction l generalizing cur with
  | nil => rfl
  | cons e rest ih =>
    rw [updateTags_cons]
    rw [ih _ (fun x hx => h x (List.mem_cons_of_mem e hx))]
    exact getKey_setKey_ne _ _ _ _ (h e (List.mem_cons_self e rest))

/-- The slot of an identifier present (once) in the new raw tags after the
merge: `updateFrameIfMultiple(...) || newFrame`, evaluated against the
identifier's pre-merge slot. -/
theorem getKey_updateTags_mem (spec : String → FrameOptions)
    (newRawTags cur : RawTags) (id : String) (nv : FrameValue)
    (hnodup : (newRawTags.map Prod.fst).Nodup)
    (hmem : (id, nv) ∈ newRawTags) :
    getKey (updateTags spec newRawTags cur) id =
      some ((updateFrameIfMultiple (spec id) (some nv)
        (getKey cur id)).getD nv) := by
  obtain ⟨l1, l2, rfl⟩ := List.append_of_mem hmem
  rw [List.map_append, List.map_cons] at hnodup
  obtain ⟨hn1, hn2, hdisj⟩ := List.nodup_append.mp hnodup
  have hid_not : id ∉ l2.map Prod.fst := (List.nodup_cons.mp hn2).1
  have h1 : ∀ e ∈ l1, e.fst ≠ id := by
    intro e he heq
    exact hdisj (heq ▸ List.mem_map_of_mem Prod.fst he)
      (List.mem_cons_self id (l2.map Prod.fst))
  have h2 : ∀ e ∈ l2, e.fst ≠ id := by
    intro e he heq
    exact hid_not (heq ▸ List.mem_map_of_mem Prod.fst he)
  have hM1 : getKey (updateTags spec l1 cur) id = getKey cur id :=
    getKey_updateTags_not_mem spec l1 cur id h1
  rw [updateTags_append, updateTags_cons,
      getKey_updateTags_not_mem spec l2 _ id h2, hM1, getKey_setKey_self]

theorem updateFrameIfMultiple_replaces (options : FrameOptions)
    (nv : FrameValue) (ct : Option FrameValue)
    (hcond : options.multiple = false ∨ ct = none ∨
      ∀ l, ct ≠ some (FrameValue.arr l)) :
    updateFrameIfMultiple options (some nv) ct = none := by
  rcases ct with _ | ctv
  · rfl
  · rcases hcond with hm | hnone | harr
    · simp [updateFrameIfMultiple, hm]
    · simp at hnone
    · cases ctv with
      | arr l => exact absurd rfl (harr l)
      | single v => simp [updateFrameIfMultiple]

/-! ### Update-module claim theorems -/

/-- C6: when the frame spec marks the frame as not multi-valued, or there
is no existing value for the identifier, or the existing value is not a
sequence, the new value simply replaces the existing one in the resulting
mapping. -/
theorem C6_simple_replace (spec : String → FrameOptions)
    (newRawTags cur : RawTags) (id : String) (nv : FrameValue)
    (hnodup : (newRawTags.map Prod.fst).Nodup)
    (hmem : (id, nv) ∈ newRawTags)
    (hcond : (spec id).multiple = false ∨ getKey cur id = none ∨
      ∀ l, getKey cur id ≠ some (FrameValue.arr l)) :
    getKey (updateTags spec newRawTags cur) id = some nv := by
  rw [getKey_updateTags_mem spec newRawTags cur id nv hnodup hmem,
      updateFrameIfMultiple_replaces (spec id) nv (getKey cur id) hcond]
  rfl

theorem C6_simple_replace_witness :
    ((([("TIT2", FrameValue.single (RValue.str "new"))] : RawTags).map
      Prod.fst).Nodup) ∧
      getKey (updateTags (fun _ => ⟨false, none⟩)
        [("TIT2", FrameValue.single (RValue.str "new"))]
        [("TIT2", FrameValue.single (RValue.str "old"))]) "TIT2" =
        some (FrameValue.single (RValue.str "new")) :=
  ⟨by decide,
    C6_simple_replace (fun _ => ⟨false, none⟩)
      [("TIT2", FrameValue.single (RValue.str "new"))]
      [("TIT2", FrameValue.single (RValue.str "old"))]
      "TIT2" (FrameValue.single (RValue.str "new"))
      (by decide) (by decide) (Or.inl (by decide))⟩

/-- C7: the merge result maps every identifier present in the new raw tags
to the merged slot (`updateFrameIfMultiple(...) || newFrame` against its
pre-merge slot), and leaves every identifier absent from the new raw tags
bound to exactly its pre-merge value. -/
theorem C7_mapping_shape (spec : String → FrameOptions)
    (newRawTags cur : RawTags) (id : String) :
    ((∀ e ∈ newRawTags, e.fst ≠ id) →
      getKey (updateTags spec newRawTags cur) id = getKey cur id) ∧
    (∀ nv, (newRawTags.map Prod.fst).Nodup → (id, nv) ∈ newRawTags →
      getKey (updateTags spec newRawTags cur) id =
        some ((updateFrameIfMultiple (spec id) (some nv)
          (getKey cur id)).getD nv)) := by
  constructor
  · exact getKey_updateTags_not_mem spec newRawTags cur id
  · intro nv hnodup hmem
    exact getKey_updateTags_mem spec newRawTags cur id nv hnodup hmem

theorem C7_mapping_shape_witness :
    getKey (updateTags (fun _ => ⟨false, none⟩)
        [("TALB", FrameValue.single (RValue.str "a"))]
        [("TIT2", FrameValue.single (RValue.str "t"))]) "TIT2" =
      getKey [("TIT2", FrameValue.single (RValue.str "t"))] "TIT2" ∧
    getKey (updateTags (fun _ => ⟨false, none⟩)
        [("TALB", FrameValue.single (RValue.str "a"))]
        [("TIT2", FrameValue.single (RValue.str "t"))]) "TALB" =
      some ((updateFrameIfMultiple ((fun _ => (⟨false, none⟩ : FrameOptions))
          "TALB")
        (some (FrameValue.single (RValue.str "a")))
        (getKey [("TIT2", FrameValue.single (RValue.str "t"))] "TALB")).getD
          (FrameValue.single (RValue.str "a"))) :=
  ⟨(C7_mapping_shape (fun _ => ⟨false, none⟩)
      [("TALB", FrameValue.single (RValue.str "a"))]
      [("TIT2", FrameValue.single (RValue.str "t"))] "TIT2").1 (by decide),
   (C7_mapping_shape (fun _ => ⟨false, none⟩)
      [("TALB", FrameValue.single (RValue.str "a"))]
      [("TIT2", FrameValue.single (RValue.str "t"))] "TALB").2
     (FrameValue.single (RValue.str "a")) (by decide) (by decide)⟩

theorem buildIndexFrom_eq (key v : String) : ∀ (cur : List RValue) (i : Nat)
    (acc : String → Option Nat),
    buildIndexFrom key cur i acc v =
      (match lastMatchIndex key v cur with
       | some p => some (p + i)
       | none => acc v) := by
  intro cur
  induction cur with
  | nil =>
    intro i acc
    rfl
  | cons t rest ih =>
    intro i acc
    cases t with
    | obj fields =>
      show buildIndexFrom key rest (i + 1)
          (fun v2 => if v2 == compareValueOf fields key then some i
            else acc v2) v = _
      rw [ih (i + 1)]
      simp only [lastMatchIndex]
      cases hl : lastMatchIndex key v rest with
      | some j =>
        show some (j + (i + 1)) = some (j + 1 + i)
        rw [show j + (i + 1) = j + 1 + i from by omega]
      | none =>
        show (if (v == compareValueOf fields key) = true then some i
              else acc v) =
          (match (if (compareValueOf fields key == v) = true then some 0
                  else none : Option Nat) with
           | some p => some (p + i)
           | none => acc v)
        by_cases hv : (v == compareValueOf fields key) = true
        · have heq : v = compareValueOf fields key := by simpa using hv
          rw [if_pos hv, if_pos (by simp [heq])]
          simp
        · have hneq : v ≠ compareValueOf fields key := by simpa using hv
          rw [if_neg hv]
          have hv2 : ¬ ((compareValueOf fields key == v) = true) := by
            simp only [beq_iff_eq]
            intro hc
            exact hneq hc.symm
          rw [if_neg hv2]
    | str s =>
      show buildIndexFrom key rest (i + 1) acc v = _
      rw [ih (i + 1)]
      simp only [lastMatchIndex]
      cases hl : lastMatchIndex key v rest with
      | some j =>
        show some (j + (i + 1)) = some (j + 1 + i)
        rw [show j + (i + 1) = j + 1 + i from by omega]
      | none =>
        rfl

theorem buildIndex_eq_lastMatchIndex (key v : String) (cur : List RValue) :
    buildIndex key cur v = lastMatchIndex key v cur := by
  unfold buildIndex
  rw [buildIndexFrom_eq]
  cases h : lastMatchIndex key v cur <;> simp

theorem mergeNewTags_eq_mergeSpec (key : String) (cur news : List RValue) :
    mergeNewTags (buildIndex key cur) key cur news =
      mergeSpecC1 key cur news := by
  unfold mergeNewTags mergeSpecC1
  apply List.foldl_ext
  intro acc b _
  cases b with
  | obj fields =>
    show (match buildIndex key cur (compareValueOf fields key) with
          | some frameIndex => acc.set frameIndex (RValue.obj fields)
          | none => acc ++ [RValue.obj fields]) = _
    rw [buildIndex_eq_lastMatchIndex]
    rfl
  | str s => rfl

/-- C1: merging into a multi-valued frame whose current value is a
sequence — with a comparison key, each new record matching an existing
record's key value overwrites that record at its original position, and
each non-matching new value is appended at the end (the claim-worded
`mergeSpecC1`); without a comparison key (or with an empty one), all new
values are appended after the existing ones, with no deduplication. -/
theorem C1_multi_value_merge (options : FrameOptions) (nt : FrameValue)
    (currentList : List RValue)
    (hmult : options.multiple = true)
    (htruthy : nt.truthy = true) :
    ((options.updateCompareKey = none ∨ options.updateCompareKey = some "") →
      updateFrameIfMultiple options (some nt) (some (.arr currentList)) =
        some (.arr (currentList ++ toTagArray nt))) ∧
    (∀ key, options.updateCompareKey = some key → key ≠ "" →
      updateFrameIfMultiple options (some nt) (some (.arr currentList)) =
        some (.arr (mergeSpecC1 key currentList (toTagArray nt)))) := by
  constructor
  · intro hkey
    rcases hkey with hnone | hempty
    · simp [updateFrameIfMultiple, hmult, htruthy, hnone]
      rfl
    · simp [updateFrameIfMultiple, hmult, htruthy, hempty]
      rfl
  · intro key hkey hne
    have hkey_ne : (key == "") = false := by
      rw [beq_eq_false_iff_ne]
      exact hne
    simp [updateFrameIfMultiple, hmult, htruthy, hkey, hkey_ne,
      mergeNewTags_eq_mergeSpec]
    rfl

theorem C1_multi_value_merge_witness :
    (updateFrameIfMultiple ⟨true, some "description"⟩
        (some (.single (.obj [("description", "abc"), ("value", "deg")])))
        (some (.arr [.obj [("description", "abc"), ("value", "old")],
                     .obj [("description", "x"), ("value", "y")]])) =
      some (.arr (mergeSpecC1 "description"
        [.obj [("description", "abc"), ("value", "old")],
         .obj [("description", "x"), ("value", "y")]]
        (toTagArray
          (.single (.obj [("description", "abc"), ("value", "deg")]))))) ∧
     mergeSpecC1 "description"
        [.obj [("description", "abc"), ("value", "old")],
         .obj [("description", "x"), ("value", "y")]]
        (toTagArray
          (.single (.obj [("description", "abc"), ("value", "deg")]))) =
       [.obj [("description", "abc"), ("value", "deg")],
        .obj [("description", "x"), ("value", "y")]]) ∧
    updateFrameIfMultiple ⟨true, none⟩
        (some (.single (.obj [("description", "new"), ("value", "v")])))
        (some (.arr [.obj [("description", "abc"), ("value", "old")]])) =
      some (.arr ([.obj [("description", "abc"), ("value", "old")]] ++
        toTagArray (.single (.obj [("description", "new"), ("value", "v")])))) :=
  ⟨⟨(C1_multi_value_merge ⟨true, some "description"⟩
      (.single (.obj [("description", "abc"), ("value", "deg")]))
      [.obj [("description", "abc"), ("value", "old")],
       .obj [("description", "x"), ("value", "y")]]
      rfl rfl).2 "description" rfl (by decide),
    by decide⟩,
   (C1_multi_value_merge ⟨true, none⟩
      (.single (.obj [("description", "new"), ("value", "v")]))
      [.obj [("description", "abc"), ("value", "old")]]
      rfl rfl).1 (Or.inl rfl)⟩

end NodeId3
